import Mathlib

/-!
Verification of the brev mail server core against its specification.

Bytes are modelled as natural numbers (the source operates on `u8`; every
byte literal below is in range `0..255`). Byte strings are `List Nat`.
Notable byte values: 13 = CR, 10 = LF, 46 = '.', 0 = NUL, 32 = space.
-/

namespace Brev

/-! ## DATA-mode dot-stuffing decoder

Embedded from `src/crates/smtp/src/message/data.rs`. -/

namespace Data

/-- The seven-state automaton `State` of `data.rs`. -/
inductive State where
  | Start
  | Cr
  | CrLf
  | CrLfDot
  | CrLfDotCr
  | CrLfDotDot
  | CrLfDotDotCr
  | Eof
deriving DecidableEq, Repr

/-- `State::as_bytes` from `data.rs`: the accumulated, not-yet-emitted prefix
of the end-of-data token held by each state. `Start` and `Eof` are
`unreachable!()` in the source; they hold no pending bytes. -/
def State.pending : State → List Nat
  | .Start => []
  | .Cr => [13]
  | .CrLf => [13, 10]
  | .CrLfDot => [13, 10, 46]
  | .CrLfDotCr => [13, 10, 46, 13]
  | .CrLfDotDot => [13, 10, 46, 46]
  | .CrLfDotDotCr => [13, 10, 46, 46, 13]
  | .Eof => []

/-- The catch-all arm of `State::advance`: flush `state.as_bytes()` as literal
output, reset to `Start`, and re-feed the current byte (in the source this is
the trailing `if *self == State::Start { self.advance(buf, b) }`; re-feeding
from `Start` yields `Cr` on 13 and emits the byte otherwise). -/
def State.fallback (s : State) (b : Nat) : State × List Nat :=
  if b = 13 then (.Cr, s.pending) else (.Start, s.pending ++ [b])

/-- `State::advance` from `data.rs`: one byte of input, returning the new
state and the bytes appended to the caller's buffer. The `(Eof, _)` arm
panics in the source ("unexpected data after end of message"); it is never
invoked because `poll_read` stops reading in the `Eof` state. -/
def State.advance : State → Nat → State × List Nat
  | .Start, b => if b = 13 then (.Cr, []) else (.Start, [b])
  | .Cr, b => if b = 10 then (.CrLf, []) else State.fallback .Cr b
  | .CrLf, b => if b = 46 then (.CrLfDot, []) else State.fallback .CrLf b
  | .CrLfDot, b =>
    if b = 13 then (.CrLfDotCr, [])
    else if b = 46 then (.CrLfDotDot, [])
    else State.fallback .CrLfDot b
  | .CrLfDotDot, b =>
    if b = 13 then (.CrLfDotDotCr, []) else State.fallback .CrLfDotDot b
  | .CrLfDotDotCr, b =>
    if b = 10 then (.CrLf, [13, 10, 46]) else State.fallback .CrLfDotDotCr b
  | .CrLfDotCr, b =>
    if b = 10 then (.Eof, [13, 10]) else State.fallback .CrLfDotCr b
  | .Eof, _ => (.Eof, [])

/-- Driving `Data::poll_read` to completion (as `read_to_end` does): feed
bytes one at a time through `State::advance` until the transport is empty or
the `Eof` state is reached. Returns the bytes delivered to the consumer, the
final automaton state, and the unconsumed remainder of the transport. -/
def run (s : State) (input : List Nat) : List Nat × State × List Nat :=
  match s, input with
  | .Eof, input => ([], .Eof, input)
  | s, [] => ([], s, [])
  | s, b :: rest =>
    let p := State.advance s b
    let q := run p.1 rest
    (p.2 ++ q.1, q.2.1, q.2.2)

/-- The byte stream the consumer sees. -/
def output (s : State) (input : List Nat) : List Nat := (run s input).1

/-- One call of `Data::poll_read` (with buffer capacity available): read
bytes until something is emitted. The `s, []` arm is the branch
`Err(e) if e.kind() == ErrorKind::UnexpectedEof => return Poll::Ready(Ok(()))`
of the source: transport end-of-file is swallowed and reported as a
successful zero-byte read, never as an error. -/
def pollRead : State → List Nat → Except Unit (List Nat × State × List Nat)
  | .Eof, input => .ok ([], .Eof, input)
  | s, [] => .ok ([], s, [])
  | s, b :: rest =>
    let p := State.advance s b
    if p.2 = [] then pollRead p.1 rest else .ok (p.2, p.1, rest)

/-- Modelled from the claim's and spec's words (the encoder is the client
side, absent from this repository): split the body into CRLF-separated
lines. Leftmost-first scan for the two-byte separator `\r\n`. -/
def splitCrlf : List Nat → List (List Nat)
  | [] => [[]]
  | 13 :: 10 :: rest => [] :: splitCrlf rest
  | b :: rest =>
    match splitCrlf rest with
    | [] => [[b]]
    | l :: ls => (b :: l) :: ls

/-- Modelled from the claim's words: "escaping lone-dot lines by doubling
the dot" — a line that is exactly `.` becomes `..`; all other lines are
unchanged. -/
def stuffLine (l : List Nat) : List Nat := if l = [46] then [46, 46] else l

/-- Rejoin stuffed lines with CRLF separators. -/
def stuffBytes : List (List Nat) → List Nat
  | [] => []
  | [l] => stuffLine l
  | l :: ls => stuffLine l ++ 13 :: 10 :: stuffBytes ls

/-- Modelled from the claim's words: the dot-stuffing encoder — escape
lone-dot lines, then append the end-of-data terminator `.\r\n` (the claim's
example bodies end with CRLF, so the terminator's leading CRLF is the
body's final line break). -/
def encodeBytes (B : List Nat) : List Nat :=
  stuffBytes (splitCrlf B) ++ [46, 13, 10]

/-- A body given as a list of lines, each implicitly CRLF-terminated. -/
def joinCrlf (lines : List (List Nat)) : List Nat :=
  lines.foldr (fun l acc => l ++ 13 :: 10 :: acc) []

theorem run_nil (s : State) : run s [] = ([], s, []) := by
  cases s <;> rfl

theorem run_eof (input : List Nat) : run .Eof input = ([], .Eof, input) := by
  cases input <;> rfl

theorem run_cons (s : State) (b : Nat) (rest : List Nat) (hs : s ≠ .Eof) :
    run s (b :: rest) =
      ((State.advance s b).2 ++ (run (State.advance s b).1 rest).1,
        (run (State.advance s b).1 rest).2) := by
  cases s <;> first | rfl | exact absurd rfl hs

/-- Bytes other than CR pass through the `Start` state unchanged. -/
theorem run_literal (w : List Nat) (hw : ∀ b ∈ w, b ≠ 13) (rest : List Nat) :
    run .Start (w ++ rest) = (w ++ (run .Start rest).1, (run .Start rest).2) := by
  induction w with
  | nil => simp
  | cons b v ih =>
    have hb : b ≠ 13 := hw b (by simp)
    rw [List.cons_append, run_cons .Start b (v ++ rest) (by simp)]
    simp [State.advance, hb, ih fun x hx => hw x (List.mem_cons_of_mem _ hx)]

/-- A CRLF seen from `Start` moves to `CrLf` emitting nothing. -/
theorem run_crlf (rest : List Nat) :
    run .Start (13 :: 10 :: rest) = run .CrLf rest := by
  rw [run_cons .Start 13 _ (by simp), show State.advance .Start 13 = (.Cr, []) from rfl]
  rw [run_cons .Cr 10 _ (by simp), show State.advance .Cr 10 = (.CrLf, []) from rfl]
  simp

theorem run_step {s s' : State} {out : List Nat} (b : Nat) (rest : List Nat)
    (hs : s ≠ .Eof) (h : State.advance s b = (s', out)) :
    run s (b :: rest) = (out ++ (run s' rest).1, (run s' rest).2) := by
  rw [run_cons s b rest hs, h]

/-- One stuffed line followed by CRLF, decoded from the `CrLf` state: the
deferred CRLF is emitted, the line is unstuffed, and the automaton is back
in `CrLf`. Requires the line to be CR/LF-free and not `..`. -/
theorem run_line (w : List Nat) (h13 : 13 ∉ w) (h10 : 10 ∉ w) (hdd : w ≠ [46, 46])
    (rest : List Nat) :
    run .CrLf (stuffLine w ++ 13 :: 10 :: rest)
      = (13 :: 10 :: (w ++ (run .CrLf rest).1), (run .CrLf rest).2) := by
  by_cases hw : w = []
  · subst hw
    rw [show stuffLine [] = [] from rfl, List.nil_append]
    rw [run_step 13 _ (by decide) (show State.advance .CrLf 13 = (.Cr, [13, 10]) from rfl)]
    rw [run_step 10 _ (by decide) (show State.advance .Cr 10 = (.CrLf, []) from rfl)]
    simp
  by_cases hlone : w = [46]
  · subst hlone
    rw [show stuffLine [46] = [46, 46] from rfl]
    simp only [List.cons_append, List.nil_append]
    rw [run_step 46 _ (by decide) (show State.advance .CrLf 46 = (.CrLfDot, []) from rfl)]
    rw [run_step 46 _ (by decide) (show State.advance .CrLfDot 46 = (.CrLfDotDot, []) from rfl)]
    rw [run_step 13 _ (by decide) (show State.advance .CrLfDotDot 13 = (.CrLfDotDotCr, []) from rfl)]
    rw [run_step 10 _ (by decide) (show State.advance .CrLfDotDotCr 10 = (.CrLf, [13, 10, 46]) from rfl)]
    simp
  rw [show stuffLine w = w by simp [stuffLine, hlone]]
  obtain ⟨b, v, rfl⟩ : ∃ b v, w = b :: v := by
    cases w with
    | nil => exact absurd rfl hw
    | cons b v => exact ⟨b, v, rfl⟩
  have hb13 : b ≠ 13 := fun h => h13 (h ▸ List.mem_cons_self b v)
  have hv13 : 13 ∉ v := fun h => h13 (List.mem_cons_of_mem b h)
  by_cases hb : b = 46
  · subst hb
    obtain ⟨c, v', rfl⟩ : ∃ c v', v = c :: v' := by
      cases v with
      | nil => exact absurd rfl hlone
      | cons c v' => exact ⟨c, v', rfl⟩
    have hc13 : c ≠ 13 := fun h => hv13 (h ▸ List.mem_cons_self c v')
    have hv'13 : 13 ∉ v' := fun h => hv13 (List.mem_cons_of_mem c h)
    simp only [List.cons_append]
    rw [run_step 46 _ (by decide) (show State.advance .CrLf 46 = (.CrLfDot, []) from rfl)]
    by_cases hc : c = 46
    · subst hc
      obtain ⟨d, v'', rfl⟩ : ∃ d v'', v' = d :: v'' := by
        cases v' with
        | nil => exact absurd rfl hdd
        | cons d v'' => exact ⟨d, v'', rfl⟩
      have hd13 : d ≠ 13 := fun h => hv'13 (h ▸ List.mem_cons_self d v'')
      have hv''13 : 13 ∉ v'' := fun h => hv'13 (List.mem_cons_of_mem d h)
      simp only [List.cons_append]
      rw [run_step 46 _ (by decide) (show State.advance .CrLfDot 46 = (.CrLfDotDot, []) from rfl)]
      rw [run_step d _ (by decide)
        (show State.advance .CrLfDotDot d = (.Start, [13, 10, 46, 46, d]) by
          simp [State.advance, State.fallback, State.pending, hd13])]
      rw [show v'' ++ 13 :: 10 :: rest = v'' ++ (13 :: 10 :: rest) from rfl,
        run_literal v'' (fun x hx h => hv''13 (h ▸ hx)) _, run_crlf]
      simp
    · rw [run_step c _ (by decide)
        (show State.advance .CrLfDot c = (.Start, [13, 10, 46, c]) by
          simp [State.advance, State.fallback, State.pending, hc13, hc])]
      rw [show v' ++ 13 :: 10 :: rest = v' ++ (13 :: 10 :: rest) from rfl,
        run_literal v' (fun x hx h => hv'13 (h ▸ hx)) _, run_crlf]
      simp
  · simp only [List.cons_append]
    rw [run_step b _ (by decide)
      (show State.advance .CrLf b = (.Start, [13, 10, b]) by
        simp [State.advance, State.fallback, State.pending, hb13, hb])]
    rw [show v ++ 13 :: 10 :: rest = v ++ (13 :: 10 :: rest) from rfl,
      run_literal v (fun x hx h => hv13 (h ▸ hx)) _, run_crlf]
    simp

/-- If a run consumes all its input without reaching `Eof`, appending more
input continues the run from the final state. -/
theorem run_append {s f : State} {a o : List Nat}
    (h : run s a = (o, f, [])) (hf : f ≠ .Eof) (b : List Nat) :
    run s (a ++ b) = (o ++ (run f b).1, (run f b).2) := by
  induction a generalizing s o with
  | nil =>
    rw [run_nil] at h
    obtain ⟨rfl, rfl⟩ : [] = o ∧ s = f := by
      simpa using h
    simp
  | cons x a' ih =>
    have hs : s ≠ .Eof := by
      rintro rfl
      rw [run_eof] at h
      simp at h
    rw [run_cons s x a' hs] at h
    have ho : (State.advance s x).2 ++ (run (State.advance s x).1 a').1 = o :=
      congrArg Prod.fst h
    have h2 : (run (State.advance s x).1 a').2 = (f, []) := congrArg Prod.snd h
    have hq : run (State.advance s x).1 a'
        = ((run (State.advance s x).1 a').1, f, []) := by
      rw [← h2]
    rw [List.cons_append, run_cons s x (a' ++ b) hs, ih hq]
    rw [← ho]
    simp

/-- The end-of-data token from `CrLf`: emit the final line break, reach
`Eof` and stop consuming. -/
theorem run_terminator (extra : List Nat) :
    run .CrLf (46 :: 13 :: 10 :: extra) = ([13, 10], .Eof, extra) := by
  rw [run_step 46 _ (by decide) (show State.advance .CrLf 46 = (.CrLfDot, []) from rfl)]
  rw [run_step 13 _ (by decide) (show State.advance .CrLfDot 13 = (.CrLfDotCr, []) from rfl)]
  rw [run_step 10 _ (by decide) (show State.advance .CrLfDotCr 10 = (.Eof, [13, 10]) from rfl)]
  rw [run_eof]
  simp

theorem run_message (ls : List (List Nat))
    (hfree : ∀ l ∈ ls, 13 ∉ l ∧ 10 ∉ l ∧ l ≠ [46, 46]) (extra : List Nat) :
    run .CrLf (stuffBytes (ls ++ [[]]) ++ 46 :: 13 :: 10 :: extra)
      = (ls.foldr (fun l acc => 13 :: 10 :: (l ++ acc)) [13, 10], .Eof, extra) := by
  induction ls with
  | nil =>
    rw [show stuffBytes ([] ++ [[]]) = [] from rfl, List.nil_append, run_terminator]
    simp
  | cons w ls ih =>
    have hstep : stuffBytes ((w :: ls) ++ [[]])
        = stuffLine w ++ 13 :: 10 :: stuffBytes (ls ++ [[]]) := by
      cases ls <;> rfl
    rw [hstep, List.append_assoc]
    rw [show (13 :: 10 :: stuffBytes (ls ++ [[]])) ++ 46 :: 13 :: 10 :: extra
        = 13 :: 10 :: (stuffBytes (ls ++ [[]]) ++ 46 :: 13 :: 10 :: extra) from rfl]
    obtain ⟨hw13, hw10, hwdd⟩ := hfree w (by simp)
    rw [run_line w hw13 hw10 hwdd _]
    rw [ih fun l hl => hfree l (List.mem_cons_of_mem _ hl)]
    simp

theorem splitCrlf_ne_nil (l : List Nat) : splitCrlf l ≠ [] := by
  rw [splitCrlf.eq_def]
  split
  · simp
  · simp
  · split <;> simp

theorem splitCrlf_cons_ne (b : Nat) (rest : List Nat) (hb : b ≠ 13) :
    splitCrlf (b :: rest)
      = match splitCrlf rest with
        | [] => [[b]]
        | l :: ls => (b :: l) :: ls := by
  rw [splitCrlf.eq_def]
  split <;> simp_all

/-- Prepending CR-free bytes extends the first CRLF-separated line. -/
theorem splitCrlf_prepend (w : List Nat) (hw : 13 ∉ w) (rest : List Nat) :
    splitCrlf (w ++ rest)
      = (w ++ (splitCrlf rest).headI) :: (splitCrlf rest).tail := by
  induction w with
  | nil =>
    rcases h : splitCrlf rest with - | ⟨l, ls⟩
    · exact absurd h (splitCrlf_ne_nil rest)
    · simp [h]
  | cons b v ih =>
    have hb : b ≠ 13 := fun h => hw (h ▸ List.mem_cons_self b v)
    have hv : 13 ∉ v := fun h => hw (List.mem_cons_of_mem b h)
    rw [List.cons_append, splitCrlf_cons_ne b (v ++ rest) hb, ih hv]
    simp

theorem splitCrlf_joinCrlf (lines : List (List Nat)) (h : ∀ l ∈ lines, 13 ∉ l) :
    splitCrlf (joinCrlf lines) = lines ++ [[]] := by
  induction lines with
  | nil => rfl
  | cons w ls ih =>
    rw [show joinCrlf (w :: ls) = w ++ (13 :: 10 :: joinCrlf ls) from rfl]
    rw [splitCrlf_prepend w (h w (by simp)) _]
    rw [show splitCrlf (13 :: 10 :: joinCrlf ls) = [] :: splitCrlf (joinCrlf ls) from rfl]
    rw [ih fun l hl => h l (List.mem_cons_of_mem _ hl)]
    simp

theorem foldr_join (ls : List (List Nat)) :
    ls.foldr (fun l acc => 13 :: 10 :: (l ++ acc)) [13, 10] = 13 :: 10 :: joinCrlf ls := by
  induction ls with
  | nil => rfl
  | cons v vs ih => simp [joinCrlf, ih]

/-- C2 (amended): dot-stuffing round-trip. For a body made of CRLF-terminated
lines that are CR/LF-free, none of which is `..`, and whose first line is not
the lone dot `.`, encoding (double lone-dot lines, append the `.\r\n`
terminator) and then decoding with the DATA-mode reader yields exactly the
body; the reader consumes exactly through the terminator (any following bytes
are left unread) and the terminating token itself is never delivered. -/
theorem claim_C2_amended (lines : List (List Nat)) (hne : lines ≠ [])
    (hfree : ∀ l ∈ lines, 13 ∉ l ∧ 10 ∉ l ∧ l ≠ [46, 46])
    (hfirst : lines.head? ≠ some [46]) (extra : List Nat) :
    run .Start (encodeBytes (joinCrlf lines) ++ extra)
      = (joinCrlf lines, .Eof, extra) := by
  obtain ⟨w, ls, rfl⟩ : ∃ w ls, lines = w :: ls := by
    cases lines with
    | nil => exact absurd rfl hne
    | cons w ls => exact ⟨w, ls, rfl⟩
  obtain ⟨hw13, hw10, -⟩ := hfree w (by simp)
  have hwfirst : w ≠ [46] := by simpa using hfirst
  rw [encodeBytes, splitCrlf_joinCrlf _ fun l hl => (hfree l hl).1]
  rw [show stuffBytes ((w :: ls) ++ [[]])
      = stuffLine w ++ 13 :: 10 :: stuffBytes (ls ++ [[]]) by cases ls <;> rfl]
  rw [show stuffLine w = w by simp [stuffLine, hwfirst]]
  rw [show (w ++ 13 :: 10 :: stuffBytes (ls ++ [[]])) ++ [46, 13, 10] ++ extra
      = w ++ (13 :: 10 :: (stuffBytes (ls ++ [[]]) ++ 46 :: 13 :: 10 :: extra)) by simp]
  rw [run_literal w (fun b hb h => hw13 (h ▸ hb)) _, run_crlf,
    run_message ls (fun l hl => hfree l (List.mem_cons_of_mem _ hl)) extra,
    foldr_join ls]
  simp [joinCrlf]

theorem claim_C2_amended_witness :
    Data.run .Start (Data.encodeBytes (Data.joinCrlf [[104, 105], [46]]) ++ [])
      = (Data.joinCrlf [[104, 105], [46]], .Eof, []) :=
  claim_C2_amended [[104, 105], [46]] (by decide) (by decide) (by decide) []

/-- C2 (as stated) fails: the body `a\r\n..\r\n` does not contain the token
`\r\n.\r\n`, yet encoding it (its `..` line is not a lone dot, so it is left
alone) and decoding gives `a\r\n.\r\n` — the decoder strips one dot. -/
theorem claim_C2_counterexample :
    ¬ [13, 10, 46, 13, 10] <:+: [97, 13, 10, 46, 46, 13, 10] ∧
      output .Start (encodeBytes [97, 13, 10, 46, 46, 13, 10])
        ≠ [97, 13, 10, 46, 46, 13, 10] := by
  decide

/-- C3 (amended): the decoder unescapes a line consisting of exactly two
dots (the sequence `\r\n..\r\n`) to a lone-dot line, continuing in `CrLf`;
a line that begins with two dots followed by any further byte is passed
through to the consumer unchanged, both dots intact. The three conjuncts
cover every continuation after `\r\n..`: LF after a CR completes the
escaped lone-dot line (unescaped); any byte other than CR is flushed
literally; a CR followed by anything but LF is likewise flushed literally
(the CR re-entering the automaton as a possible token start). -/
theorem claim_C3_amended (rest : List Nat) :
    run .CrLf (46 :: 46 :: 13 :: 10 :: rest)
      = (13 :: 10 :: 46 :: (run .CrLf rest).1, (run .CrLf rest).2) ∧
    (∀ x, x ≠ 13 →
      run .CrLf (46 :: 46 :: x :: rest)
        = (13 :: 10 :: 46 :: 46 :: x :: (run .Start rest).1, (run .Start rest).2)) ∧
    (∀ z, z ≠ 10 →
      run .CrLf (46 :: 46 :: 13 :: z :: rest)
        = if z = 13 then
            (13 :: 10 :: 46 :: 46 :: 13 :: (run .Cr rest).1, (run .Cr rest).2)
          else
            (13 :: 10 :: 46 :: 46 :: 13 :: z :: (run .Start rest).1,
              (run .Start rest).2)) := by
  refine ⟨?_, ?_, ?_⟩
  · rw [run_step 46 _ (by decide) (show State.advance .CrLf 46 = (.CrLfDot, []) from rfl)]
    rw [run_step 46 _ (by decide) (show State.advance .CrLfDot 46 = (.CrLfDotDot, []) from rfl)]
    rw [run_step 13 _ (by decide) (show State.advance .CrLfDotDot 13 = (.CrLfDotDotCr, []) from rfl)]
    rw [run_step 10 _ (by decide) (show State.advance .CrLfDotDotCr 10 = (.CrLf, [13, 10, 46]) from rfl)]
    simp
  · intro x hx13
    rw [run_step 46 _ (by decide) (show State.advance .CrLf 46 = (.CrLfDot, []) from rfl)]
    rw [run_step 46 _ (by decide) (show State.advance .CrLfDot 46 = (.CrLfDotDot, []) from rfl)]
    rw [run_step x _ (by decide)
      (show State.advance .CrLfDotDot x = (.Start, [13, 10, 46, 46, x]) by
        simp [State.advance, State.fallback, State.pending, hx13])]
    simp
  · intro z hz10
    rw [run_step 46 _ (by decide) (show State.advance .CrLf 46 = (.CrLfDot, []) from rfl)]
    rw [run_step 46 _ (by decide) (show State.advance .CrLfDot 46 = (.CrLfDotDot, []) from rfl)]
    rw [run_step 13 _ (by decide) (show State.advance .CrLfDotDot 13 = (.CrLfDotDotCr, []) from rfl)]
    by_cases hz13 : z = 13
    · subst hz13
      rw [run_step 13 _ (by decide)
        (show State.advance .CrLfDotDotCr 13 = (.Cr, [13, 10, 46, 46, 13]) from rfl)]
      simp
    · rw [run_step z _ (by decide)
        (show State.advance .CrLfDotDotCr z = (.Start, [13, 10, 46, 46, 13, z]) by
          simp [State.advance, State.fallback, State.pending, hz10, hz13])]
      simp [hz13]

theorem claim_C3_amended_witness :
    run .CrLf [46, 46, 13, 10] = (13 :: 10 :: 46 :: (run .CrLf []).1, (run .CrLf []).2) ∧
    run .CrLf [46, 46, 46] = (13 :: 10 :: 46 :: 46 :: 46 :: (run .Start []).1, (run .Start []).2) ∧
    run .CrLf [46, 46, 13, 13]
      = if (13 : Nat) = 13 then (13 :: 10 :: 46 :: 46 :: 13 :: (run .Cr []).1, (run .Cr []).2)
        else (13 :: 10 :: 46 :: 46 :: 13 :: 13 :: (run .Start []).1, (run .Start []).2) :=
  ⟨(claim_C3_amended []).1, (claim_C3_amended []).2.1 46 (by decide),
    (claim_C3_amended []).2.2 13 (by decide)⟩

/-- C3 (as stated) fails: in the stream `a\r\n..x\r\n.\r\n` the line `..x`
begins with two dots, but the consumer receives `a\r\n..x\r\n` with both
dots intact, not `a\r\n.x\r\n` with one leading dot removed. -/
theorem claim_C3_counterexample :
    output .Start [97, 13, 10, 46, 46, 120, 13, 10, 46, 13, 10]
        = [97, 13, 10, 46, 46, 120, 13, 10] ∧
      output .Start [97, 13, 10, 46, 46, 120, 13, 10, 46, 13, 10]
        ≠ [97, 13, 10, 46, 120, 13, 10] := by
  decide

/-- C10: if the transport reaches end-of-file before the decoder has seen
the `\r\n.\r\n` terminator (the automaton is not in `Eof`), the next
`poll_read` reports a successful zero-byte read — a clean end of stream,
not an error — and the bytes of a partially matched terminator prefix
(`State::as_bytes` of the final state) were withheld from the consumer:
had one more non-matching byte arrived they would have been flushed. -/
theorem claim_C10 (input out : List Nat) (fin : State)
    (h : run .Start input = (out, fin, [])) (hfin : fin ≠ .Eof) :
    pollRead fin [] = .ok ([], fin, []) ∧
    output .Start (input ++ [0]) = out ++ fin.pending ++ [0] := by
  constructor
  · cases fin <;> rfl
  · have hflush : run fin [0] = (fin.pending ++ [0], .Start, []) := by
      cases fin <;> first | decide | exact absurd rfl hfin
    rw [output, run_append h hfin, hflush]
    simp

theorem claim_C10_witness :
    pollRead .Cr [] = .ok ([], .Cr, []) ∧
    output .Start ([97, 13] ++ [0]) = [97] ++ State.pending .Cr ++ [0] :=
  claim_C10 [97, 13] [97] .Cr (by decide) (by decide)

end Data

/-! ## SASL PLAIN decoder

Embedded from `src/crates/auth/src/sasl/plain.rs`. -/

namespace Sasl

/-- One byte of UTF-8 validation (RFC 3629 well-formedness, as enforced by
Rust's `str::from_utf8`). The state is the list of byte ranges still
expected to finish the current scalar; `[]` means a scalar boundary. -/
def utf8Step : List (Nat × Nat) → Nat → Option (List (Nat × Nat))
  | [], b =>
    if b ≤ 0x7F then some []
    else if 0xC2 ≤ b ∧ b ≤ 0xDF then some [(0x80, 0xBF)]
    else if b = 0xE0 then some [(0xA0, 0xBF), (0x80, 0xBF)]
    else if (0xE1 ≤ b ∧ b ≤ 0xEC) ∨ b = 0xEE ∨ b = 0xEF then
      some [(0x80, 0xBF), (0x80, 0xBF)]
    else if b = 0xED then some [(0x80, 0x9F), (0x80, 0xBF)]
    else if b = 0xF0 then some [(0x90, 0xBF), (0x80, 0xBF), (0x80, 0xBF)]
    else if 0xF1 ≤ b ∧ b ≤ 0xF3 then some [(0x80, 0xBF), (0x80, 0xBF), (0x80, 0xBF)]
    else if b = 0xF4 then some [(0x80, 0x8F), (0x80, 0xBF), (0x80, 0xBF)]
    else none
  | (lo, hi) :: rest, b => if lo ≤ b ∧ b ≤ hi then some rest else none

def utf8Scan (st : Option (List (Nat × Nat))) (l : List Nat) : Option (List (Nat × Nat)) :=
  l.foldl (fun st b => st.bind fun e => utf8Step e b) st

/-- A byte sequence is valid UTF-8 when the scan ends at a scalar boundary. -/
def utf8Valid (l : List Nat) : Bool := utf8Scan (some []) l == some []

/-- Rust's `str::splitn`: locate the first occurrence of the separator. -/
def splitFirst (sep : Nat) : List Nat → Option (List Nat × List Nat)
  | [] => none
  | b :: rest =>
    if b = sep then some ([], rest)
    else (splitFirst sep rest).map fun p => (b :: p.1, p.2)

/-- Rust's `splitn(n, sep)`: split into at most `n` parts, the last part
being the unsplit remainder. -/
def splitn (sep : Nat) : Nat → List Nat → List (List Nat)
  | 0, _ => []
  | 1, l => [l]
  | n + 2, l =>
    match splitFirst sep l with
    | none => [l]
    | some (x, y) => x :: splitn sep (n + 1) y

/-- `DecodeError` from `plain.rs`. -/
inductive DecodeError where
  | Utf8
  | MissingParts
deriving DecidableEq, Repr

/-- `Credentials`, with username and password kept as UTF-8 bytes. -/
structure Credentials where
  username : List Nat
  password : List Nat
deriving DecidableEq, Repr

/-- `decode` from `plain.rs`: `str::from_utf8` (failure → `Utf8`), then
`splitn(3, '\0').skip(1)`; a missing part → `MissingParts`. Splitting the
decoded string on the NUL character coincides with splitting the byte
sequence on byte 0, since 0 occurs in well-formed UTF-8 only as the
one-byte NUL scalar. -/
def decode (data : List Nat) : Except DecodeError Credentials :=
  if utf8Valid data then
    match (splitn 0 3 data).drop 1 with
    | [] => .error .MissingParts
    | [_] => .error .MissingParts
    | username :: password :: _ => .ok ⟨username, password⟩
  else
    .error .Utf8

theorem utf8Scan_append (st : Option (List (Nat × Nat))) (a b : List Nat) :
    utf8Scan st (a ++ b) = utf8Scan (utf8Scan st a) b :=
  List.foldl_append ..

theorem utf8Valid_append {a b : List Nat} (ha : utf8Valid a) (hb : utf8Valid b) :
    utf8Valid (a ++ b) := by
  have ha' : utf8Scan (some []) a = some [] := by simpa [utf8Valid] using ha
  have hb' : utf8Scan (some []) b = some [] := by simpa [utf8Valid] using hb
  simp [utf8Valid, utf8Scan_append, ha', hb']

theorem splitFirst_none {sep : Nat} {l : List Nat} (h : sep ∉ l) :
    splitFirst sep l = none := by
  induction l with
  | nil => rfl
  | cons b rest ih =>
    have hb : b ≠ sep := fun hb => h (hb ▸ List.mem_cons_self b rest)
    rw [splitFirst, if_neg hb, ih fun hm => h (List.mem_cons_of_mem b hm)]
    rfl

theorem splitFirst_found {sep : Nat} {a : List Nat} (ha : sep ∉ a) (b : List Nat) :
    splitFirst sep (a ++ sep :: b) = some (a, b) := by
  induction a with
  | nil => simp [splitFirst]
  | cons x rest ih =>
    have hx : x ≠ sep := fun hx => ha (hx ▸ List.mem_cons_self x rest)
    rw [List.cons_append, splitFirst, if_neg hx,
      ih fun hm => ha (List.mem_cons_of_mem x hm)]
    rfl

theorem splitn_two (l : List Nat) :
    splitn 0 2 l
      = match splitFirst 0 l with
        | none => [l]
        | some (x, y) => x :: [y] := rfl

theorem splitn_three (l : List Nat) :
    splitn 0 3 l
      = match splitFirst 0 l with
        | none => [l]
        | some (x, y) => x :: splitn 0 2 y := rfl

/-- C9: PLAIN decode. (1) For NUL-free UTF-8 strings `user` and `pass`,
decoding `\0user\0pass` yields exactly those credentials. (2) A valid
UTF-8 input with no NUL separator, and (3) one with exactly one NUL
separator, fail with `MissingParts`. (4) A non-UTF-8 input fails with
`Utf8`. -/
theorem claim_C9 :
    (∀ u p : List Nat, 0 ∉ u → 0 ∉ p → utf8Valid u → utf8Valid p →
      decode (0 :: u ++ 0 :: p) = .ok ⟨u, p⟩) ∧
    (∀ data : List Nat, utf8Valid data → 0 ∉ data →
      decode data = .error .MissingParts) ∧
    (∀ a b : List Nat, utf8Valid (a ++ 0 :: b) → 0 ∉ a → 0 ∉ b →
      decode (a ++ 0 :: b) = .error .MissingParts) ∧
    (∀ data : List Nat, ¬ utf8Valid data → decode data = .error .Utf8) := by
  refine ⟨?_, ?_, ?_, ?_⟩
  · intro u p hu hp hvu hvp
    have hnul : utf8Valid [0] := by decide
    have hvalid : utf8Valid (0 :: u ++ 0 :: p) := by
      have : (0 :: u ++ 0 :: p) = ([0] ++ u) ++ ([0] ++ p) := by simp
      rw [this]
      exact utf8Valid_append (utf8Valid_append hnul hvu) (utf8Valid_append hnul hvp)
    rw [decode, if_pos hvalid]
    have h1 : splitFirst 0 (0 :: u ++ 0 :: p) = some ([], u ++ 0 :: p) := by
      rw [show (0 :: u ++ 0 :: p : List Nat) = 0 :: (u ++ 0 :: p) by simp]
      rw [splitFirst, if_pos rfl]
    simp only [splitn_three, splitn_two, h1, splitFirst_found hu p]
    rfl
  · intro data hv h0
    rw [decode, if_pos hv]
    simp only [splitn_three, splitFirst_none h0]
    rfl
  · intro a b hv ha hb
    rw [decode, if_pos hv]
    simp only [splitn_three, splitn_two, splitFirst_found ha b, splitFirst_none hb]
    rfl
  · intro data hv
    rw [decode, if_neg hv]

theorem claim_C9_witness :
    decode (0 :: [98, 111, 98] ++ 0 :: [104, 117, 110, 116, 101, 114, 50])
        = .ok ⟨[98, 111, 98], [104, 117, 110, 116, 101, 114, 50]⟩ ∧
      decode [98, 111, 98] = .error .MissingParts ∧
      decode ([97] ++ 0 :: [98]) = .error .MissingParts ∧
      decode [255] = .error .Utf8 :=
  ⟨claim_C9.1 _ _ (by decide) (by decide) (by decide) (by decide),
    claim_C9.2.1 _ (by decide) (by decide),
    claim_C9.2.2.1 [97] [98] (by decide) (by decide) (by decide),
    claim_C9.2.2.2 _ (by decide)⟩

end Sasl

/-! ## MaybeTls stream

Embedded from `src/crates/line/src/stream.rs`. The TLS capability's
handshake (`tokio_rustls`' fallible accept/connect) is abstracted as a
function `hs : Sock → Except (E × Sock) T`: on failure it returns the error
together with the plaintext socket, as the `Tls` trait requires. -/

namespace Stream

/-- `Inner` from `stream.rs`. -/
inductive Inner (T Sock : Type) where
  | Plain (io : Sock)
  | Tls (t : T)
  | Empty

/-- `MaybeTls` from `stream.rs`. -/
structure MaybeTls (T Sock : Type) where
  inner : Inner T Sock

def MaybeTls.fromPlain {T Sock : Type} (io : Sock) : MaybeTls T Sock := ⟨.Plain io⟩

def MaybeTls.fromTls {T Sock : Type} (t : T) : MaybeTls T Sock := ⟨.Tls t⟩

def MaybeTls.isPlain {T Sock : Type} : MaybeTls T Sock → Bool
  | ⟨.Plain _⟩ => true
  | _ => false

def MaybeTls.isTls {T Sock : Type} : MaybeTls T Sock → Bool
  | ⟨.Tls _⟩ => true
  | _ => false

/-- The free function `upgrade` of `stream.rs`, acting on the extracted
inner state: a plaintext stream is handed to the handshake — success stores
the TLS stream, failure restores the plaintext stream returned by the
handshake and reports the error; an already-TLS stream is put back
untouched with `Ok`. The `Empty` arm is `unreachable!()` in the source. -/
def upgradeInner {T Sock E : Type} (hs : Sock → Except (E × Sock) T) :
    Inner T Sock → MaybeTls T Sock × Option E
  | .Plain plain =>
    match hs plain with
    | .ok tls => (MaybeTls.fromTls tls, none)
    | .error (err, plain) => (MaybeTls.fromPlain plain, some err)
  | .Tls tls => (MaybeTls.fromTls tls, none)
  | .Empty => (⟨.Empty⟩, none)

/-- `MaybeTls::upgrade`: `mem::replace` the state with the transient
`Empty`, run `upgrade` on the extracted state, store the returned stream,
return the handshake result (`none` = `Ok(())`, `some e` = `Err(e)`). -/
def MaybeTls.upgrade {T Sock E : Type} (hs : Sock → Except (E × Sock) T)
    (m : MaybeTls T Sock) : MaybeTls T Sock × Option E :=
  upgradeInner hs m.inner

/-- `poll_write` of `MaybeTls`: delegate to whichever stream is inside,
with the writes of the two stream types abstracted. The `Empty` arm is
`unreachable!()` in the source. -/
def MaybeTls.pollWrite {T Sock W : Type} (wp : Sock → List Nat → W)
    (wt : T → List Nat → W) (dflt : W) : MaybeTls T Sock → List Nat → W
  | ⟨.Plain io⟩, buf => wp io buf
  | ⟨.Tls t⟩, buf => wt t buf
  | ⟨.Empty⟩, _ => dflt

/-- C1: `MaybeTls::upgrade` is atomic. Under the `Tls` interface contract
that a failed handshake hands back the original socket, upgrading a
plaintext stream either succeeds (the stream is now exactly the TLS state,
`Ok` returned) or fails (the error is returned and the stream is exactly
the previous plaintext stream — so any subsequent write behaves exactly as
before the attempt); upgrading an already-TLS stream is a no-op returning
`Ok`. -/
theorem claim_C1 {T Sock E : Type} (hs : Sock → Except (E × Sock) T)
    (hsoriginal : ∀ io e io', hs io = .error (e, io') → io' = io) :
    (∀ io t, hs io = .ok t →
      MaybeTls.upgrade hs (MaybeTls.fromPlain io) = (MaybeTls.fromTls t, none)) ∧
    (∀ io e io', hs io = .error (e, io') →
      MaybeTls.upgrade hs (MaybeTls.fromPlain io) = (MaybeTls.fromPlain io, some e)) ∧
    (∀ t, MaybeTls.upgrade hs (MaybeTls.fromTls t) = (MaybeTls.fromTls t, none)) ∧
    (∀ (W : Type) (wp : Sock → List Nat → W) (wt : T → List Nat → W) (dflt : W)
        (io : Sock) (e : E) (io' : Sock) (buf : List Nat), hs io = .error (e, io') →
      MaybeTls.pollWrite wp wt dflt (MaybeTls.upgrade hs (MaybeTls.fromPlain io)).1 buf
        = MaybeTls.pollWrite wp wt dflt (MaybeTls.fromPlain io) buf) := by
  refine ⟨?_, ?_, ?_, ?_⟩
  · intro io t h
    simp [MaybeTls.upgrade, MaybeTls.fromPlain, upgradeInner, h]
  · intro io e io' h
    have := hsoriginal io e io' h
    subst this
    simp [MaybeTls.upgrade, MaybeTls.fromPlain, upgradeInner, h]
  · intro t
    rfl
  · intro W wp wt dflt io e io' buf h
    have := hsoriginal io e io' h
    subst this
    simp [MaybeTls.upgrade, MaybeTls.fromPlain, upgradeInner, h]

theorem claim_C1_witness :
    MaybeTls.upgrade (fun io : Nat => (Except.error ((7 : Nat), io) : Except (Nat × Nat) Nat))
        (MaybeTls.fromPlain 5)
      = (MaybeTls.fromPlain 5, some 7) :=
  (claim_C1 (fun io : Nat => (Except.error ((7 : Nat), io) : Except (Nat × Nat) Nat))
    (fun _ _ _ h => by cases h; rfl)).2.1 5 7 5 rfl

end Stream

/-! ## IMAP session

Embedded from `src/crates/imap/src/server/session.rs` and
`src/crates/imap-proto/src/command/capability.rs`. -/

namespace Imap

/-- Capability bit values from `capability.rs` (`flags!` macro). -/
def capIMAP4 : Nat := 1
def capIMAP4rev1 : Nat := 2
def capIMAP4rev2 : Nat := 4
def capSTARTTLS : Nat := 8
def capAUTH_PLAIN : Nat := 16
def capLOGINDISABLED : Nat := 32
def capSASL_IR : Nat := 64

/-- Bitflag membership. -/
def capMem (caps flag : Nat) : Bool := caps &&& flag ≠ 0

/-- `Session::capabilities` from `session.rs`: base set
`IMAP4rev1 | IMAP4rev2 | AUTH_PLAIN | SASL_IR`; on a plaintext connection
add `LOGINDISABLED`, and additionally `STARTTLS` when a TLS config is
present. -/
def capabilities (isPlainConn tlsConfigured : Bool) : Nat :=
  let caps := capIMAP4rev1 ||| capIMAP4rev2 ||| capAUTH_PLAIN ||| capSASL_IR
  if isPlainConn then
    let caps := caps ||| capLOGINDISABLED
    if tlsConfigured then caps ||| capSTARTTLS else caps
  else caps

/-- C7: IMAP capability invariant — `LOGINDISABLED` is advertised iff the
connection is plaintext, and `STARTTLS` is advertised only on a plaintext
connection with a TLS config present. -/
theorem claim_C7 (isPlainConn tlsConfigured : Bool) :
    (capMem (capabilities isPlainConn tlsConfigured) capLOGINDISABLED = true
      ↔ isPlainConn = true) ∧
    (capMem (capabilities isPlainConn tlsConfigured) capSTARTTLS = true
      → isPlainConn = true ∧ tlsConfigured = true) := by
  cases isPlainConn <;> cases tlsConfigured <;> exact (by decide)

theorem claim_C7_witness :
    (capMem (capabilities true false) capLOGINDISABLED = true) ∧
    (true = true ∧ true = true) :=
  ⟨(claim_C7 true false).1.mpr rfl, (claim_C7 true true).2 (by decide)⟩

/-- `Status` from `imap-proto/src/response.rs`. -/
inductive Status where
  | Ok
  | No
  | Bad
deriving DecidableEq, Repr

/-- `Session::handle_starttls` from `session.rs`: the tagged status
responses written (status and message of `TaggedStatusResponse`, the
client's tag elided) and whether the TLS upgrade is then attempted. On an
already-TLS connection: BAD `Already using TLS`; with no TLS config: BAD
`TLS not available`; otherwise the source responds BAD
`Begin TLS negotiation` and upgrades. -/
def handleStarttls (isTlsConn tlsConfigured : Bool) :
    List (Status × String) × Bool :=
  if isTlsConn then ([(Status.Bad, "Already using TLS")], false)
  else if tlsConfigured then ([(Status.Bad, "Begin TLS negotiation")], true)
  else ([(Status.Bad, "TLS not available")], false)

/-- C5: the first two prongs hold (BAD `Already using TLS` when already
TLS, BAD `TLS not available` without a TLS config), but on the upgrade
path the source answers with a tagged BAD `Begin TLS negotiation` before
upgrading, not the tagged OK the claim requires. -/
theorem claim_C5 :
    handleStarttls true true = ([(Status.Bad, "Already using TLS")], false) ∧
    handleStarttls true false = ([(Status.Bad, "Already using TLS")], false) ∧
    handleStarttls false false = ([(Status.Bad, "TLS not available")], false) ∧
    handleStarttls false true = ([(Status.Bad, "Begin TLS negotiation")], true) ∧
    (handleStarttls false true).1.map Prod.fst ≠ [Status.Ok] := by
  refine ⟨rfl, rfl, rfl, rfl, ?_⟩
  decide

end Imap

/-! ## SMTP command parsing and line reading

Embedded from `src/crates/smtp/src/command.rs`, `src/crates/line/src/lib.rs`
and `src/crates/smtp/src/lib.rs`. The external `EmailAddress::from_str`
validator is abstracted as a predicate `emailOk` on the address bytes; the
300-second read timeout is a real-time behaviour outside this embedding. -/

namespace Smtp

/-- `LINE_LIMIT` from `smtp/src/lib.rs`. -/
def LINE_LIMIT : Nat := 1000

/-- `WhichMechanism` from `auth/src/sasl.rs`. -/
inductive WhichMechanism where
  | Plain
deriving DecidableEq, Repr

/-- `Command` from `command.rs`; strings are byte lists, and a parsed
`EmailAddress` is kept as the bytes it was parsed from. -/
inductive Command where
  | Helo (domain : List Nat)
  | Ehlo (domain : List Nat)
  | Mail (sender : List Nat)
  | Rcpt (recipient : List Nat)
  | Rset
  | Data
  | Bdat (size : Nat) (last : Bool)
  | Noop
  | Quit
  | Starttls
  | Auth (mechanism : WhichMechanism) (initialResponse : Option (List Nat))
deriving DecidableEq, Repr

/-- `Error` from `command.rs` (the parse error). -/
inductive ParseError where
  | UnrecognizedCommand
  | Syntax (hint : String)
  | InvalidUtf8
deriving DecidableEq, Repr

/-- `u8::to_ascii_uppercase`. -/
def toUpper (b : Nat) : Nat := if 97 ≤ b ∧ b ≤ 122 then b - 32 else b

/-- `str::parse::<u64>`: optional leading `+`, then one or more ASCII
digits; overflow past `u64::MAX` fails. -/
def parseU64 (s : List Nat) : Option Nat :=
  let digits := match s with
    | 43 :: rest => rest
    | _ => s
  if digits = [] then none
  else if digits.all (fun b => 48 ≤ b && b ≤ 57) then
    let v := digits.foldl (fun acc b => acc * 10 + (b - 48)) 0
    if v < 2 ^ 64 then some v else none
  else none

/-- `parse_mailbox` from `command.rs`: skip to the first `<`, take until
the next `>` (nom's streaming `take_until` fails when the delimiter is
absent). -/
def extractAngle (args : List Nat) : Option (List Nat) :=
  match Sasl.splitFirst 60 args with
  | none => none
  | some (_, rest) =>
    match Sasl.splitFirst 62 rest with
    | none => none
    | some (inner, _) => some inner

/-- `mailbox` from `command.rs`, with `EmailAddress::from_str` abstracted
as `emailOk`. -/
def mailbox (emailOk : List Nat → Bool) (args : List Nat) : Option (List Nat) :=
  match extractAngle args with
  | some a => if emailOk a then some a else none
  | none => none

/-- `WhichMechanism::from_str`: ASCII-case-insensitive `PLAIN`. -/
def parseMech (s : List Nat) : Option WhichMechanism :=
  if s.map toUpper = [80, 76, 65, 73, 78] then some .Plain else none

/-- `TryFrom<&[u8]> for Command` from `command.rs`: UTF-8 check, split the
line at the first space into verb and arguments, uppercase the verb,
dispatch. Verb byte strings: HELO, EHLO, MAIL, RCPT, DATA, RSET, NOOP,
QUIT, BDAT, STARTTLS, AUTH. -/
def parseCmd (emailOk : List Nat → Bool) (bytes : List Nat) :
    Except ParseError Command :=
  if Sasl.utf8Valid bytes then
    let va := match Sasl.splitFirst 32 bytes with
      | none => (bytes, ([] : List Nat))
      | some (v, a) => (v, a)
    let verb := va.1.map toUpper
    let args := va.2
    if verb = [72, 69, 76, 79] then .ok (.Helo args)
    else if verb = [69, 72, 76, 79] then .ok (.Ehlo args)
    else if verb = [77, 65, 73, 76] then
      match mailbox emailOk args with
      | some a => .ok (.Mail a)
      | none => .error (.Syntax "MAIL FROM:<address>")
    else if verb = [82, 67, 80, 84] then
      match mailbox emailOk args with
      | some a => .ok (.Rcpt a)
      | none => .error (.Syntax "RCPT TO:<address>")
    else if verb = [68, 65, 84, 65] then .ok .Data
    else if verb = [82, 83, 69, 84] then .ok .Rset
    else if verb = [78, 79, 79, 80] then .ok .Noop
    else if verb = [81, 85, 73, 84] then .ok .Quit
    else if verb = [66, 68, 65, 84] then
      let sr := match Sasl.splitFirst 32 args with
        | none => (args, (none : Option (List Nat)))
        | some (s, r) => (s, some r)
      match parseU64 sr.1 with
      | none => .error (.Syntax "BDAT <size>")
      | some n =>
        .ok (.Bdat n (match sr.2 with
          | none => false
          | some r => r.map toUpper = [76, 65, 83, 84]))
    else if verb = [83, 84, 65, 82, 84, 84, 76, 83] then .ok .Starttls
    else if verb = [65, 85, 84, 72] then
      let mi := match Sasl.splitFirst 32 args with
        | none => (args, (none : Option (List Nat)))
        | some (m, i) => (m, some i)
      match parseMech mi.1 with
      | none => .error (.Syntax "AUTH <mechanism> [initial-response]")
      | some mech => .ok (.Auth mech mi.2)
    else .error .UnrecognizedCommand
  else .error .InvalidUtf8

/-- `read_until(b'\n')` under a `take(limit)` adapter: consume up to
`limit` bytes, stopping after the first LF. -/
def takeToLine (limit : Nat) : List Nat → List Nat
  | [] => []
  | b :: rest =>
    match limit with
    | 0 => []
    | n + 1 => if b = 10 then [10] else b :: takeToLine n rest

/-- The trailing-CR/LF trim of `read_line` (`rposition` of a byte that is
neither CR nor LF, then truncate). -/
def trimCrlf (l : List Nat) : List Nat :=
  (l.reverse.dropWhile fun b => b == 13 || b == 10).reverse

theorem takeToLine_len_pos (limit : Nat) (h : 0 < limit) (b : Nat) (l : List Nat) :
    0 < (takeToLine limit (b :: l)).length := by
  cases limit with
  | zero => omega
  | succ n =>
    rw [takeToLine]
    split <;> simp

theorem drop_take_lt (b : Nat) (tail : List Nat) :
    ((b :: tail).drop (takeToLine LINE_LIMIT (b :: tail)).length).length
      < (b :: tail).length := by
  simp only [List.length_drop]
  have := takeToLine_len_pos LINE_LIMIT (by decide) b tail
  simp only [List.length_cons] at *
  omega

/-- `read_cmd_inner` from `command.rs`: read lines until one parses as a
command. Returns the parsed command (`none` = end of file before any
byte), the unconsumed remainder of the transport, and the `501`/`500`
error replies written along the way (an invalid-UTF-8 line is skipped
without a reply). -/
def readCmd (emailOk : List Nat → Bool) (input : List Nat) :
    Option Command × List Nat × List String :=
  match input with
  | [] => (none, [], [])
  | b :: tail =>
    let raw := takeToLine LINE_LIMIT (b :: tail)
    let rest := (b :: tail).drop raw.length
    match parseCmd emailOk (trimCrlf raw) with
    | .ok cmd => (some cmd, rest, [])
    | .error .InvalidUtf8 => readCmd emailOk rest
    | .error (.Syntax hint) =>
      let r := readCmd emailOk rest
      (r.1, r.2.1, ("501 Syntax: " ++ hint ++ "\r\n") :: r.2.2)
    | .error .UnrecognizedCommand =>
      let r := readCmd emailOk rest
      (r.1, r.2.1, "500 Unrecognized command\r\n" :: r.2.2)
termination_by input.length
decreasing_by
  all_goals exact drop_take_lt _ _

theorem readCmd_some_lt (emailOk : List Nat → Bool) :
    ∀ (n : Nat) (input : List Nat), input.length ≤ n →
      ∀ {c : Command} {rest : List Nat} {replies : List String},
        readCmd emailOk input = (some c, rest, replies) → rest.length < input.length := by
  intro n
  induction n with
  | zero =>
    intro input hlen c rest replies h
    have hnil : input = [] := by
      cases input with
      | nil => rfl
      | cons b tail => simp at hlen
    subst hnil
    rw [readCmd] at h
    cases h
  | succ n ih =>
    intro input hlen c rest replies h
    cases input with
    | nil =>
      rw [readCmd] at h
      cases h
    | cons b tail =>
      rw [readCmd] at h
      dsimp only at h
      have hlt := drop_take_lt b tail
      have hle : ((b :: tail).drop (takeToLine LINE_LIMIT (b :: tail)).length).length ≤ n := by
        simp only [List.length_cons] at hlen hlt
        omega
      split at h
      · obtain ⟨h1, h2, h3⟩ : _ ∧ _ ∧ _ := by simpa using h
        rw [← h2]
        exact hlt
      · exact Nat.lt_trans (ih _ hle h) hlt
      · obtain ⟨h1, h2, -⟩ : _ ∧ _ ∧ _ := by simpa using h
        have heq : readCmd emailOk ((b :: tail).drop (takeToLine LINE_LIMIT (b :: tail)).length)
            = (some c, rest,
              (readCmd emailOk ((b :: tail).drop (takeToLine LINE_LIMIT (b :: tail)).length)).2.2) := by
          rw [← h1, ← h2]
        exact Nat.lt_trans (ih _ hle heq) hlt
      · obtain ⟨h1, h2, -⟩ : _ ∧ _ ∧ _ := by simpa using h
        have heq : readCmd emailOk ((b :: tail).drop (takeToLine LINE_LIMIT (b :: tail)).length)
            = (some c, rest,
              (readCmd emailOk ((b :: tail).drop (takeToLine LINE_LIMIT (b :: tail)).length)).2.2) := by
          rw [← h1, ← h2]
        exact Nat.lt_trans (ih _ hle heq) hlt

theorem takeToLine_exact (w : List Nat) (h10 : 10 ∉ w) :
    ∀ (limit : Nat), w.length + 2 ≤ limit → ∀ (rest : List Nat),
      takeToLine limit (w ++ 13 :: 10 :: rest) = w ++ [13, 10] := by
  induction w with
  | nil =>
    intro limit hl rest
    match limit, hl with
    | n + 2, _ => simp [takeToLine]
  | cons b v ih =>
    intro limit hl rest
    match limit, hl with
    | n + 1, hl =>
      have hb : b ≠ 10 := fun h => h10 (h ▸ List.mem_cons_self b v)
      have hv : 10 ∉ v := fun h => h10 (List.mem_cons_of_mem b h)
      simp only [List.cons_append, takeToLine, if_neg hb, List.append_eq]
      rw [ih hv n (by simp only [List.length_cons] at hl; omega) rest]

/-- Reading one complete CRLF-terminated line that parses as a command:
the line is consumed exactly, the command returned, nothing written. -/
theorem readCmd_line (emailOk : List Nat → Bool) (w : List Nat) (cmd : Command)
    (h10 : 10 ∉ w) (hlen : w.length + 2 ≤ LINE_LIMIT)
    (hp : parseCmd emailOk (trimCrlf (w ++ [13, 10])) = .ok cmd) (rest : List Nat) :
    readCmd emailOk (w ++ 13 :: 10 :: rest) = (some cmd, rest, []) := by
  have hraw : takeToLine LINE_LIMIT (w ++ 13 :: 10 :: rest) = w ++ [13, 10] :=
    takeToLine_exact w h10 LINE_LIMIT hlen rest
  have hdrop : (w ++ 13 :: 10 :: rest).drop (w ++ [13, 10]).length = rest := by
    rw [show w ++ 13 :: 10 :: rest = (w ++ [13, 10]) ++ rest by simp]
    exact List.drop_left _ _
  cases w with
  | nil =>
    simp only [List.nil_append] at hraw hp hdrop ⊢
    rw [readCmd]
    simp only [hraw, hp, hdrop]
  | cons b v =>
    simp only [List.cons_append] at hraw hp hdrop ⊢
    rw [readCmd]
    simp only [hraw, hp, hdrop]

/-! ## SMTP session state machine

Embedded from `src/crates/smtp/src/server/session.rs`, `ehlo.rs`,
`io.rs` and `message.rs`. -/

/-- `Envelope` from `message.rs`; the recipient `HashSet` is a
duplicate-free list (`List.insert` adds only unseen elements). -/
structure Envelope where
  sender : List Nat
  recipients : List (List Nat)
deriving DecidableEq, Repr

/-- `Envelope::new`. -/
def Envelope.new (sender : List Nat) : Envelope := ⟨sender, []⟩

/-- The `Session` fields of `server/session.rs` relevant to command
handling, plus the two connection facts the handlers consult
(`connection.is_tls()` and `config.tls.is_some()`) and the configured
hostname. -/
structure Session where
  envelope : Option Envelope
  heloDomain : Option (List Nat)
  identity : Option (List Nat)
  greeted : Bool
  isTlsConn : Bool
  tlsConfigured : Bool
  hostname : String
deriving DecidableEq, Repr

/-- `Session::take_envelope`: `take()` the envelope; if absent reply
`503 need MAIL command`; if it has no recipients reply
`554 no recipients` and put it back; otherwise hand it out. -/
def takeEnvelope (s : Session) : Session × List String × Option Envelope :=
  match s.envelope with
  | none => ({ s with envelope := none }, ["503 need MAIL command\r\n"], none)
  | some env =>
    if env.recipients.isEmpty then
      ({ s with envelope := some env }, ["554 no recipients\r\n"], none)
    else
      ({ s with envelope := none }, [], some env)

/-- The EHLO reply of `Session::ehlo` formatted per `ehlo.rs`: extensions
`8BITMIME | SMTPUTF8 | CHUNKING` (in bit order), `STARTTLS` only when a
TLS config is present and the connection is plaintext, no SIZE, and
`Auth::all()` = `LOGIN | PLAIN` on the final line. -/
def ehloResponse (hostname : String) (advertiseStarttls : Bool) : String :=
  "250-" ++ hostname ++ "\r\n" ++
    "250-8BITMIME\r\n250-SMTPUTF8\r\n250-CHUNKING\r\n" ++
    (if advertiseStarttls then "250-STARTTLS\r\n" else "") ++
    "250 AUTH LOGIN PLAIN\r\n"

/-- What a `next_message` loop iteration can hand to the caller:
an `Incoming` in DATA mode or in BDAT mode. -/
inductive Yielded where
  | data (env : Envelope)
  | bdat (env : Envelope) (size : Nat) (last : Bool)
deriving DecidableEq, Repr

/-- The observable effect of handling one parsed command inside
`Session::next_message`. -/
structure StepResult where
  state : Session
  replies : List String
  yielded : Option Yielded
  ioError : Bool
deriving DecidableEq, Repr

/-- One iteration of the command loop of `Session::next_message`
(`server/session.rs`), given the parsed command. `hsOk` is the outcome of
the TLS handshake, consulted only on the STARTTLS upgrade path; a failed
handshake propagates as an I/O error (`ioError`), ending the session.
The `Auth` arm mirrors the source: after the two `503` guards it replies
`235 welcome` without running any SASL exchange and without setting the
session identity. -/
def nextMessageStep (s : Session) (cmd : Command) (hsOk : Bool) : StepResult :=
  match cmd with
  | .Helo d =>
    ⟨{ s with envelope := none, heloDomain := some d }, ["250 hello\r\n"], none, false⟩
  | .Ehlo d =>
    ⟨{ s with envelope := none, heloDomain := some d },
      [ehloResponse s.hostname (s.tlsConfigured && !s.isTlsConn)], none, false⟩
  | .Mail sender =>
    if s.heloDomain.isNone then
      ⟨s, ["503 say HELO first\r\n"], none, false⟩
    else if s.envelope.isSome then
      ⟨s, ["501 transaction already started\r\n"], none, false⟩
    else
      ⟨{ s with envelope := some (Envelope.new sender) }, ["250 ok\r\n"], none, false⟩
  | .Rcpt recipient =>
    match s.envelope with
    | none => ⟨s, ["503 need MAIL command\r\n"], none, false⟩
    | some env =>
      ⟨{ s with envelope := some { env with recipients := env.recipients.insert recipient } },
        ["250 ok\r\n"], none, false⟩
  | .Data =>
    match takeEnvelope s with
    | (s', replies, some env) => ⟨s', replies ++ ["354 go ahead\r\n"], some (.data env), false⟩
    | (s', replies, none) => ⟨s', replies, none, false⟩
  | .Rset => ⟨{ s with envelope := none }, ["250 ok\r\n"], none, false⟩
  | .Bdat size last =>
    match takeEnvelope s with
    | (s', replies, some env) => ⟨s', replies, some (.bdat env size last), false⟩
    | (s', replies, none) => ⟨s', replies, none, false⟩
  | .Quit => ⟨s, ["221 Bye\r\n"], none, false⟩
  | .Noop => ⟨s, ["250 ok\r\n"], none, false⟩
  | .Starttls =>
    if s.isTlsConn then
      ⟨s, ["454 Already using TLS\r\n"], none, false⟩
    else if !s.tlsConfigured then
      ⟨s, ["454 TLS not available\r\n"], none, false⟩
    else if hsOk then
      ⟨{ s with isTlsConn := true, heloDomain := none, identity := none, envelope := none },
        ["220 Go ahead\r\n"], none, false⟩
    else
      ⟨s, ["220 Go ahead\r\n"], none, true⟩
  | .Auth _ _ =>
    if s.envelope.isSome then
      ⟨s, ["503 transaction already started\r\n"], none, false⟩
    else if s.identity.isSome then
      ⟨s, ["503 already authenticated\r\n"], none, false⟩
    else
      ⟨s, ["235 welcome\r\n"], none, false⟩

/-- C8: envelope gating. A loop iteration yields an `Incoming` handle only
when the session's envelope existed and had at least one recipient (and
only for DATA/BDAT); DATA or BDAT with no envelope replies
`503 need MAIL command` and yields nothing; with an envelope whose
recipient set is empty it replies `554 no recipients`, yields nothing, and
leaves the whole session state — envelope included — unchanged. -/
theorem claim_C8 (s : Session) (cmd : Command) (hsOk : Bool) :
    (∀ y, (nextMessageStep s cmd hsOk).yielded = some y →
      ∃ env, s.envelope = some env ∧ env.recipients ≠ [] ∧
        (cmd = .Data ∨ ∃ n l, cmd = .Bdat n l)) ∧
    ((cmd = .Data ∨ ∃ n l, cmd = .Bdat n l) → s.envelope = none →
      (nextMessageStep s cmd hsOk).replies = ["503 need MAIL command\r\n"] ∧
      (nextMessageStep s cmd hsOk).yielded = none) ∧
    (∀ env, (cmd = .Data ∨ ∃ n l, cmd = .Bdat n l) → s.envelope = some env →
      env.recipients = [] →
      (nextMessageStep s cmd hsOk).replies = ["554 no recipients\r\n"] ∧
      (nextMessageStep s cmd hsOk).yielded = none ∧
      (nextMessageStep s cmd hsOk).state = s) := by
  refine ⟨?_, ?_, ?_⟩
  · intro y hy
    cases cmd with
    | Helo d => simp [nextMessageStep] at hy
    | Ehlo d => simp [nextMessageStep] at hy
    | Rset => simp [nextMessageStep] at hy
    | Quit => simp [nextMessageStep] at hy
    | Noop => simp [nextMessageStep] at hy
    | Mail sender =>
      by_cases hd : s.heloDomain.isNone <;> by_cases he : s.envelope.isSome <;>
        simp [nextMessageStep, hd, he] at hy
    | Rcpt r =>
      rcases henv : s.envelope with - | env <;> simp [nextMessageStep, henv] at hy
    | Starttls =>
      by_cases h1 : s.isTlsConn <;> by_cases h2 : s.tlsConfigured <;> cases hsOk <;>
        simp [nextMessageStep, h1, h2] at hy
    | Auth m i =>
      by_cases h1 : s.envelope.isSome <;> by_cases h2 : s.identity.isSome <;>
        simp [nextMessageStep, h1, h2] at hy
    | Data =>
      rcases henv : s.envelope with - | env
      · simp [nextMessageStep, takeEnvelope, henv] at hy
      · by_cases hrec : env.recipients.isEmpty
        · simp [nextMessageStep, takeEnvelope, henv, hrec] at hy
        · exact ⟨env, rfl, by simpa [List.isEmpty_iff] using hrec, Or.inl rfl⟩
    | Bdat n l =>
      rcases henv : s.envelope with - | env
      · simp [nextMessageStep, takeEnvelope, henv] at hy
      · by_cases hrec : env.recipients.isEmpty
        · simp [nextMessageStep, takeEnvelope, henv, hrec] at hy
        · exact ⟨env, rfl, by simpa [List.isEmpty_iff] using hrec, Or.inr ⟨n, l, rfl⟩⟩
  · intro hcmd henv
    rcases hcmd with rfl | ⟨n, l, rfl⟩ <;>
      simp [nextMessageStep, takeEnvelope, henv]
  · intro env hcmd henv hrec
    have hempty : env.recipients.isEmpty = true := by simp [List.isEmpty_iff, hrec]
    have hstate : { s with envelope := some env } = s := by
      cases s
      simp_all
    rcases hcmd with rfl | ⟨n, l, rfl⟩ <;>
      simp [nextMessageStep, takeEnvelope, henv, hempty, hstate]

theorem claim_C8_witness :
    ((nextMessageStep ⟨some ⟨[97], []⟩, some [100], none, true, false, false, "h"⟩
        .Data false).replies = ["554 no recipients\r\n"] ∧
      (nextMessageStep ⟨some ⟨[97], []⟩, some [100], none, true, false, false, "h"⟩
        .Data false).yielded = none ∧
      (nextMessageStep ⟨some ⟨[97], []⟩, some [100], none, true, false, false, "h"⟩
        .Data false).state
        = ⟨some ⟨[97], []⟩, some [100], none, true, false, false, "h"⟩) :=
  (claim_C8 ⟨some ⟨[97], []⟩, some [100], none, true, false, false, "h"⟩ .Data
    false).2.2 ⟨[97], []⟩ (Or.inl rfl) rfl rfl

/-- C6: the AUTH arm of `next_message`. With an envelope present it
replies `503 transaction already started`; with an identity already set it
replies `503 already authenticated`; otherwise the source replies
`235 welcome` directly — no SASL challenge/response exchange is run and
the session identity is left unset, contradicting the claim. -/
theorem claim_C6 (s : Session) (mech : WhichMechanism)
    (ir : Option (List Nat)) (hsOk : Bool) :
    (∀ env, s.envelope = some env →
      nextMessageStep s (.Auth mech ir) hsOk
        = ⟨s, ["503 transaction already started\r\n"], none, false⟩) ∧
    (s.envelope = none → ∀ id, s.identity = some id →
      nextMessageStep s (.Auth mech ir) hsOk
        = ⟨s, ["503 already authenticated\r\n"], none, false⟩) ∧
    (s.envelope = none → s.identity = none →
      nextMessageStep s (.Auth mech ir) hsOk
        = ⟨s, ["235 welcome\r\n"], none, false⟩ ∧
      (nextMessageStep s (.Auth mech ir) hsOk).state.identity = none) := by
  refine ⟨?_, ?_, ?_⟩
  · intro env henv
    simp [nextMessageStep, henv]
  · intro henv id hid
    simp [nextMessageStep, henv, hid]
  · intro henv hid
    simp [nextMessageStep, henv, hid]

theorem claim_C6_witness :
    nextMessageStep ⟨none, some [100], none, true, false, false, "h"⟩
        (.Auth .Plain none) false
      = ⟨⟨none, some [100], none, true, false, false, "h"⟩,
        ["235 welcome\r\n"], none, false⟩ ∧
    (nextMessageStep ⟨none, some [100], none, true, false, false, "h"⟩
        (.Auth .Plain none) false).state.identity = none :=
  (claim_C6 ⟨none, some [100], none, true, false, false, "h"⟩ .Plain none
    false).2.2 rfl rfl

/-! ## BDAT chunked reader

Embedded from `src/crates/smtp/src/message/bdat.rs`. -/

/-- The I/O error kinds the BDAT reader produces. -/
inductive IoErr where
  | UnexpectedEof
deriving DecidableEq, Repr

theorem readCmd_some_len {emailOk : List Nat → Bool} {input : List Nat}
    {c : Command} {rest : List Nat} {replies : List String}
    (h : readCmd emailOk input = (some c, rest, replies)) :
    rest.length < input.length :=
  readCmd_some_lt emailOk input.length input le_rfl h

/-- The command loop inside `next_bdat` (after its initial `250 ok`):
`BDAT n [LAST]` returns the new chunk parameters; `QUIT` writes the `bye`
reply and fails with `UnexpectedEof`; `RSET` or transport EOF fail with
`UnexpectedEof`; `NOOP` replies `250 ok` and keeps waiting; any other
command replies `503 expected BDAT` and keeps waiting. Returned: the wire
replies and either the error or `((size, last), remaining input)`. -/
def nextBdatLoop (emailOk : List Nat → Bool) (input : List Nat) :
    List String × Except IoErr ((Nat × Bool) × List Nat) :=
  match h : readCmd emailOk input with
  | (some (.Bdat n l), rest, replies) => (replies, .ok ((n, l), rest))
  | (some .Quit, _, replies) => (replies ++ ["221 Bye\r\n"], .error .UnexpectedEof)
  | (some .Rset, _, replies) => (replies, .error .UnexpectedEof)
  | (none, _, replies) => (replies, .error .UnexpectedEof)
  | (some .Noop, rest, replies) =>
    let r := nextBdatLoop emailOk rest
    (replies ++ "250 ok\r\n" :: r.1, r.2)
  | (some _, rest, replies) =>
    let r := nextBdatLoop emailOk rest
    (replies ++ "503 expected BDAT\r\n" :: r.1, r.2)
termination_by input.length
decreasing_by all_goals exact readCmd_some_len (by assumption)

/-- `next_bdat` from `bdat.rs`: write `250 ok` (request more data), then
run the command loop. -/
def nextBdat (emailOk : List Nat → Bool) (input : List Nat) :
    List String × Except IoErr ((Nat × Bool) × List Nat) :=
  let r := nextBdatLoop emailOk input
  ("250 ok\r\n" :: r.1, r.2)

theorem nextBdatLoop_unfold (emailOk : List Nat → Bool) (input : List Nat) :
    nextBdatLoop emailOk input
      = match readCmd emailOk input with
        | (some (.Bdat n l), rest, replies) => (replies, .ok ((n, l), rest))
        | (some .Quit, _, replies) => (replies ++ ["221 Bye\r\n"], .error .UnexpectedEof)
        | (some .Rset, _, replies) => (replies, .error .UnexpectedEof)
        | (none, _, replies) => (replies, .error .UnexpectedEof)
        | (some .Noop, rest, replies) =>
          (replies ++ "250 ok\r\n" :: (nextBdatLoop emailOk rest).1,
            (nextBdatLoop emailOk rest).2)
        | (some _, rest, replies) =>
          (replies ++ "503 expected BDAT\r\n" :: (nextBdatLoop emailOk rest).1,
            (nextBdatLoop emailOk rest).2) := by
  rw [nextBdatLoop]
  rcases hrc : readCmd emailOk input with ⟨o, rest, replies⟩
  rcases o with - | c
  · rfl
  · cases c <;> rfl

theorem nextBdatLoop_ok_len (emailOk : List Nat → Bool) (input : List Nat) :
    ∀ {replies : List String} {nl : Nat × Bool} {rest' : List Nat},
      nextBdatLoop emailOk input = (replies, .ok (nl, rest')) →
        rest'.length < input.length := by
  induction input using nextBdatLoop.induct emailOk with
  | case1 x n l rest replies0 h =>
    intro replies nl rest' hc
    rw [nextBdatLoop_unfold, h] at hc
    obtain ⟨-, -, h3⟩ : _ ∧ _ ∧ _ := by simpa using hc
    rw [← h3]
    exact readCmd_some_len h
  | case2 x fst replies0 h =>
    intro replies nl rest' hc
    rw [nextBdatLoop_unfold, h] at hc
    simp at hc
  | case3 x fst replies0 h =>
    intro replies nl rest' hc
    rw [nextBdatLoop_unfold, h] at hc
    simp at hc
  | case4 x fst replies0 h =>
    intro replies nl rest' hc
    rw [nextBdatLoop_unfold, h] at hc
    simp at hc
  | case5 x rest replies0 h ih =>
    intro replies nl rest' hc
    rw [nextBdatLoop_unfold, h] at hc
    obtain ⟨-, h2⟩ : _ ∧ _ := by simpa using hc
    have heq : nextBdatLoop emailOk rest
        = ((nextBdatLoop emailOk rest).1, .ok (nl, rest')) := by
      rw [← h2]
    exact Nat.lt_trans (ih heq) (readCmd_some_len h)
  | case6 x val rest replies0 hb hq hr hn h ih =>
    intro replies nl rest' hc
    rw [nextBdatLoop_unfold, h] at hc
    have hc' : (nextBdatLoop emailOk rest).2 = Except.ok (nl, rest') := by
      cases val with
      | Bdat n l => exact (hb n l rfl).elim
      | Quit => exact (hq rfl).elim
      | Rset => exact (hr rfl).elim
      | Noop => exact (hn rfl).elim
      | Helo d => exact (congrArg Prod.snd hc).symm ▸ rfl
      | Ehlo d => exact (congrArg Prod.snd hc).symm ▸ rfl
      | Mail a => exact (congrArg Prod.snd hc).symm ▸ rfl
      | Rcpt a => exact (congrArg Prod.snd hc).symm ▸ rfl
      | Data => exact (congrArg Prod.snd hc).symm ▸ rfl
      | Starttls => exact (congrArg Prod.snd hc).symm ▸ rfl
      | Auth m i => exact (congrArg Prod.snd hc).symm ▸ rfl
    have heq : nextBdatLoop emailOk rest
        = ((nextBdatLoop emailOk rest).1, .ok (nl, rest')) := by
      rw [← hc']
    exact Nat.lt_trans (ih heq) (readCmd_some_len h)

theorem nextBdat_ok_len {emailOk : List Nat → Bool} {input : List Nat}
    {replies : List String} {nl : Nat × Bool} {rest' : List Nat}
    (h : nextBdat emailOk input = (replies, .ok (nl, rest'))) :
    rest'.length < input.length := by
  have h2 : (nextBdatLoop emailOk input).2 = .ok (nl, rest') := congrArg Prod.snd h
  exact nextBdatLoop_ok_len emailOk input
    (show nextBdatLoop emailOk input
      = ((nextBdatLoop emailOk input).1, .ok (nl, rest')) by rw [← h2])

/-- `Bdat::poll_read` driven to completion (as `read_to_end` does),
starting in `Read(limit, last)`: read `limit` bytes from the transport
(transport EOF short of `limit` is an `UnexpectedEof` error); if `last`
the stream ends cleanly; otherwise run `next_bdat` and either end (error,
or `BDAT 0 LAST`) or continue with the next chunk. Returns the wire
replies and either the error or (message bytes, unconsumed transport). -/
def bdatReadAll (emailOk : List Nat → Bool) (limit : Nat) (last : Bool)
    (input : List Nat) : List String × Except IoErr (List Nat × List Nat) :=
  if input.length < limit then ([], .error .UnexpectedEof)
  else if last then ([], .ok (input.take limit, input.drop limit))
  else
    match h : nextBdat emailOk (input.drop limit) with
    | (replies, .error e) => (replies, .error e)
    | (replies, .ok ((n, l), rest')) =>
      if n = 0 ∧ l then (replies, .ok (input.take limit, rest'))
      else
        let r := bdatReadAll emailOk n l rest'
        (replies ++ r.1, r.2.map fun br => (input.take limit ++ br.1, br.2))
termination_by input.length
decreasing_by
  have hlt := nextBdat_ok_len h
  have hdl : (input.drop limit).length ≤ input.length := by
    simp only [List.length_drop]
    omega
  omega

/-- `Incoming::accept` from `message.rs`: the terminal reply flushed when
the caller accepts the message. -/
def acceptReply : String := "250 ok\r\n"

/-- `Incoming::reject` from `message.rs`. -/
def rejectReply : String := "554 nope\r\n"

theorem bdatReadAll_unfold (emailOk : List Nat → Bool) (limit : Nat) (last : Bool)
    (input : List Nat) :
    bdatReadAll emailOk limit last input
      = if input.length < limit then ([], .error .UnexpectedEof)
        else if last then ([], .ok (input.take limit, input.drop limit))
        else
          match nextBdat emailOk (input.drop limit) with
          | (replies, .error e) => (replies, .error e)
          | (replies, .ok ((n, l), rest')) =>
            if n = 0 ∧ l then (replies, .ok (input.take limit, rest'))
            else
              (replies ++ (bdatReadAll emailOk n l rest').1,
                ((bdatReadAll emailOk n l rest').2).map
                  fun br => (input.take limit ++ br.1, br.2)) := by
  rw [bdatReadAll]
  by_cases h1 : input.length < limit
  · rw [if_pos h1, if_pos h1]
  · rw [if_neg h1, if_neg h1]
    cases last
    · rw [if_neg (by simp), if_neg (by simp)]
      rcases hnb : nextBdat emailOk (input.drop limit) with ⟨replies, res⟩
      rcases res with e | ⟨⟨n, l⟩, rest'⟩ <;> rfl
    · rw [if_pos rfl, if_pos rfl]

theorem bdatRead_chunk (emailOk : List Nat → Bool) (c X : List Nat) (last : Bool) :
    bdatReadAll emailOk c.length last (c ++ X)
      = if last then ([], .ok (c, X))
        else
          match nextBdat emailOk X with
          | (replies, .error e) => (replies, .error e)
          | (replies, .ok ((n, l), rest')) =>
            if n = 0 ∧ l then (replies, .ok (c, rest'))
            else
              (replies ++ (bdatReadAll emailOk n l rest').1,
                ((bdatReadAll emailOk n l rest').2).map
                  fun br => (c ++ br.1, br.2)) := by
  have h1 : ¬ (c ++ X).length < c.length := by
    simp only [List.length_append]
    omega
  rw [bdatReadAll_unfold, if_neg h1, List.take_left, List.drop_left]

theorem bdatRead_last (emailOk : List Nat → Bool) (c X : List Nat) :
    bdatReadAll emailOk c.length true (c ++ X) = ([], .ok (c, X)) := by
  rw [bdatRead_chunk, if_pos rfl]

theorem bdatRead_cont (emailOk : List Nat → Bool) (c X : List Nat) :
    bdatReadAll emailOk c.length false (c ++ X)
      = match nextBdat emailOk X with
        | (replies, .error e) => (replies, .error e)
        | (replies, .ok ((n, l), rest')) =>
          if n = 0 ∧ l then (replies, .ok (c, rest'))
          else
            (replies ++ (bdatReadAll emailOk n l rest').1,
              ((bdatReadAll emailOk n l rest').2).map
                fun br => (c ++ br.1, br.2)) := by
  rw [bdatRead_chunk]
  rfl

/-- The loop behind `next_bdat`, fed one complete command line. -/
theorem nextBdatLoop_line (emailOk : List Nat → Bool) {w : List Nat} {cmd : Command}
    (h10 : 10 ∉ w) (hlen : w.length + 2 ≤ LINE_LIMIT)
    (hp : parseCmd emailOk (trimCrlf (w ++ [13, 10])) = .ok cmd) (rest : List Nat) :
    nextBdatLoop emailOk (w ++ 13 :: 10 :: rest)
      = match cmd with
        | .Bdat n l => ([], .ok ((n, l), rest))
        | .Quit => (["221 Bye\r\n"], .error .UnexpectedEof)
        | .Rset => ([], .error .UnexpectedEof)
        | .Noop => ("250 ok\r\n" :: (nextBdatLoop emailOk rest).1,
            (nextBdatLoop emailOk rest).2)
        | _ => ("503 expected BDAT\r\n" :: (nextBdatLoop emailOk rest).1,
            (nextBdatLoop emailOk rest).2) := by
  rw [nextBdatLoop_unfold, readCmd_line emailOk w cmd h10 hlen hp rest]
  cases cmd <;> rfl

theorem nextBdatLoop_nil (emailOk : List Nat → Bool) :
    nextBdatLoop emailOk [] = ([], .error .UnexpectedEof) := by
  rw [nextBdatLoop_unfold, show readCmd emailOk [] = (none, [], []) by rw [readCmd]]

/-- After a `BDAT c2.length LAST` announcement: read the final chunk and
deliver it appended to the body. -/
theorem bdat_after (emailOk : List Nat → Bool) (c1 c2 extra : List Nat)
    (replies : List String) :
    (if c2.length = 0 ∧ true then (replies, Except.ok (c1, c2 ++ extra))
      else
        (replies ++ (bdatReadAll emailOk c2.length true (c2 ++ extra)).1,
          ((bdatReadAll emailOk c2.length true (c2 ++ extra)).2).map
            (fun br => (c1 ++ br.1, br.2) : List Nat × List Nat → List Nat × List Nat)))
      = ((replies, Except.ok (c1 ++ c2, extra)) :
          List String × Except IoErr (List Nat × List Nat)) := by
  by_cases hc2 : c2.length = 0
  · have hc2' : c2 = [] := List.length_eq_zero.mp hc2
    subst hc2'
    simp
  · rw [if_neg (by simp [hc2]), bdatRead_last]
    simp [Except.map]

/-- C4: BDAT-mode reading. (1) A non-final chunk of `n₁` bytes followed by
a line parsing as `BDAT n₂ LAST` and `n₂` more bytes yields exactly the
concatenation of the two chunk bodies — of total length `n₁ + n₂` — with a
single `250 ok` on the wire between the chunks, leaving later transport
bytes unread. (2) Terminal `accept()` writes a further `250 ok`. (3) A
`NOOP` between chunks gets `250 ok` and waiting continues. (4) `QUIT`
writes the bye reply and fails with `UnexpectedEof`. (5) `RSET` fails with
`UnexpectedEof`. (6) Transport EOF between chunks fails with
`UnexpectedEof`. (7) Any other command gets `503 expected BDAT` and
waiting continues. (8) `BDAT 0 LAST` ends the stream cleanly. -/
theorem claim_C4 (emailOk : List Nat → Bool) :
    (∀ c1 c2 w extra : List Nat, 10 ∉ w → w.length + 2 ≤ LINE_LIMIT →
      parseCmd emailOk (trimCrlf (w ++ [13, 10])) = .ok (.Bdat c2.length true) →
      bdatReadAll emailOk c1.length false (c1 ++ (w ++ 13 :: 10 :: (c2 ++ extra)))
          = (["250 ok\r\n"], .ok (c1 ++ c2, extra))
        ∧ (c1 ++ c2).length = c1.length + c2.length) ∧
    acceptReply = "250 ok\r\n" ∧
    (∀ c1 c2 wn w extra : List Nat,
      10 ∉ wn → wn.length + 2 ≤ LINE_LIMIT →
      parseCmd emailOk (trimCrlf (wn ++ [13, 10])) = .ok .Noop →
      10 ∉ w → w.length + 2 ≤ LINE_LIMIT →
      parseCmd emailOk (trimCrlf (w ++ [13, 10])) = .ok (.Bdat c2.length true) →
      bdatReadAll emailOk c1.length false
          (c1 ++ (wn ++ 13 :: 10 :: (w ++ 13 :: 10 :: (c2 ++ extra))))
        = (["250 ok\r\n", "250 ok\r\n"], .ok (c1 ++ c2, extra))) ∧
    (∀ c1 w junk : List Nat, 10 ∉ w → w.length + 2 ≤ LINE_LIMIT →
      parseCmd emailOk (trimCrlf (w ++ [13, 10])) = .ok .Quit →
      bdatReadAll emailOk c1.length false (c1 ++ (w ++ 13 :: 10 :: junk))
        = (["250 ok\r\n", "221 Bye\r\n"], .error .UnexpectedEof)) ∧
    (∀ c1 w junk : List Nat, 10 ∉ w → w.length + 2 ≤ LINE_LIMIT →
      parseCmd emailOk (trimCrlf (w ++ [13, 10])) = .ok .Rset →
      bdatReadAll emailOk c1.length false (c1 ++ (w ++ 13 :: 10 :: junk))
        = (["250 ok\r\n"], .error .UnexpectedEof)) ∧
    (∀ c1 : List Nat, bdatReadAll emailOk c1.length false c1
        = (["250 ok\r\n"], .error .UnexpectedEof)) ∧
    (∀ (c1 c2 wo w extra : List Nat) (cmd : Command),
      (∀ n l, cmd ≠ .Bdat n l) → cmd ≠ .Quit → cmd ≠ .Rset → cmd ≠ .Noop →
      10 ∉ wo → wo.length + 2 ≤ LINE_LIMIT →
      parseCmd emailOk (trimCrlf (wo ++ [13, 10])) = .ok cmd →
      10 ∉ w → w.length + 2 ≤ LINE_LIMIT →
      parseCmd emailOk (trimCrlf (w ++ [13, 10])) = .ok (.Bdat c2.length true) →
      bdatReadAll emailOk c1.length false
          (c1 ++ (wo ++ 13 :: 10 :: (w ++ 13 :: 10 :: (c2 ++ extra))))
        = (["250 ok\r\n", "503 expected BDAT\r\n"], .ok (c1 ++ c2, extra))) ∧
    (∀ c1 w extra : List Nat, 10 ∉ w → w.length + 2 ≤ LINE_LIMIT →
      parseCmd emailOk (trimCrlf (w ++ [13, 10])) = .ok (.Bdat 0 true) →
      bdatReadAll emailOk c1.length false (c1 ++ (w ++ 13 :: 10 :: extra))
        = (["250 ok\r\n"], .ok (c1, extra))) := by
  refine ⟨?_, rfl, ?_, ?_, ?_, ?_, ?_, ?_⟩
  · intro c1 c2 w extra h10 hlen hp
    refine ⟨?_, by simp⟩
    have hnb : nextBdat emailOk (w ++ 13 :: 10 :: (c2 ++ extra))
        = (["250 ok\r\n"], .ok ((c2.length, true), c2 ++ extra)) := by
      rw [nextBdat, nextBdatLoop_line emailOk h10 hlen hp]
    rw [bdatRead_cont, hnb]
    exact bdat_after emailOk c1 c2 extra _
  · intro c1 c2 wn w extra h10n hlenn hpn h10 hlen hp
    have hnb : nextBdat emailOk (wn ++ 13 :: 10 :: (w ++ 13 :: 10 :: (c2 ++ extra)))
        = (["250 ok\r\n", "250 ok\r\n"], .ok ((c2.length, true), c2 ++ extra)) := by
      rw [nextBdat, nextBdatLoop_line emailOk h10n hlenn hpn,
        nextBdatLoop_line emailOk h10 hlen hp]
    rw [bdatRead_cont, hnb]
    exact bdat_after emailOk c1 c2 extra _
  · intro c1 w junk h10 hlen hp
    have hnb : nextBdat emailOk (w ++ 13 :: 10 :: junk)
        = (["250 ok\r\n", "221 Bye\r\n"], .error .UnexpectedEof) := by
      rw [nextBdat, nextBdatLoop_line emailOk h10 hlen hp]
    rw [bdatRead_cont, hnb]
  · intro c1 w junk h10 hlen hp
    have hnb : nextBdat emailOk (w ++ 13 :: 10 :: junk)
        = (["250 ok\r\n"], .error .UnexpectedEof) := by
      rw [nextBdat, nextBdatLoop_line emailOk h10 hlen hp]
    rw [bdatRead_cont, hnb]
  · intro c1
    have h := bdatRead_cont emailOk c1 []
    rw [List.append_nil] at h
    rw [h, show nextBdat emailOk [] = (["250 ok\r\n"], .error .UnexpectedEof) by
      rw [nextBdat, nextBdatLoop_nil]]
  · intro c1 c2 wo w extra cmd hb hq hr hn h10o hleno hpo h10 hlen hp
    have hloop : nextBdatLoop emailOk (w ++ 13 :: 10 :: (c2 ++ extra))
        = ([], .ok ((c2.length, true), c2 ++ extra)) := by
      rw [nextBdatLoop_line emailOk h10 hlen hp]
    have hnb : nextBdat emailOk (wo ++ 13 :: 10 :: (w ++ 13 :: 10 :: (c2 ++ extra)))
        = (["250 ok\r\n", "503 expected BDAT\r\n"], .ok ((c2.length, true), c2 ++ extra)) := by
      rw [nextBdat, nextBdatLoop_line emailOk h10o hleno hpo]
      cases cmd with
      | Bdat n l => exact (hb n l rfl).elim
      | Quit => exact (hq rfl).elim
      | Rset => exact (hr rfl).elim
      | Noop => exact (hn rfl).elim
      | Helo d => rw [hloop]
      | Ehlo d => rw [hloop]
      | Mail a => rw [hloop]
      | Rcpt a => rw [hloop]
      | Data => rw [hloop]
      | Starttls => rw [hloop]
      | Auth m i => rw [hloop]
    rw [bdatRead_cont, hnb]
    exact bdat_after emailOk c1 c2 extra _
  · intro c1 w extra h10 hlen hp
    have hnb : nextBdat emailOk (w ++ 13 :: 10 :: extra)
        = (["250 ok\r\n"], .ok ((0, true), extra)) := by
      rw [nextBdat, nextBdatLoop_line emailOk h10 hlen hp]
    rw [bdatRead_cont, hnb]
    simp

theorem claim_C4_witness :
    bdatReadAll (fun _ => false) [69, 100, 101, 108].length false
        ([69, 100, 101, 108] ++ ([66, 68, 65, 84, 32, 50, 32, 76, 65, 83, 84]
          ++ 13 :: 10 :: ([119, 101] ++ [])))
      = (["250 ok\r\n"], .ok ([69, 100, 101, 108] ++ [119, 101], []))
    ∧ ([69, 100, 101, 108] ++ [119, 101]).length
        = [69, 100, 101, 108].length + [119, 101].length :=
  (claim_C4 (fun _ => false)).1 [69, 100, 101, 108] [119, 101]
    [66, 68, 65, 84, 32, 50, 32, 76, 65, 83, 84] []
    (by decide) (by decide) (by rfl)

end Smtp

end Brev
